import Mathlib

/-!
Verification of the yaq client protocol engine (`yaqc/_socket.py`) against its
natural-language specification.

The development shallowly embeds `Socket` as pure functions:

* the TCP byte stream delivered by the server is a `List Nat` of bytes;
* blocking socket reads that never complete, and exhaustion of the recursion
  fuel, are both modelled as the absence of a result (`none` / `diverge`);
* the external Avro codec (`fastavro`) is an explicit parameter: a `Codec`
  structure bundling `parse_schema` (`parse`), `schemaless_writer` (`write`,
  `none` models a raised exception), the attempted `schemaless_reader` on an
  in-memory buffer (`readBuf`, `none` models "decode failed, need more
  bytes"), and the handful of schema/value literals the source passes to it;
* the bytes a `Socket` method hands to `Socket._write` are collected in order
  in a `written` trace; `Socket._write` itself is length-prefix framing,
  modelled by `frame`.
-/

set_option maxHeartbeats 1000000

namespace Yaqc

/-- Read chunk bound; `BUFFSIZE = 4096` in the source. -/
def BUFFSIZE : Nat := 4096

/-- Big-endian 4-byte encoding of a length, modelling `struct.pack(">L", n)`. -/
def u32be (n : Nat) : List Nat :=
  [n / 16777216 % 256, n / 65536 % 256, n / 256 % 256, n % 256]

/-- One length-prefixed wire buffer, as emitted by `Socket._write`:
the 4-byte big-endian length followed by the payload. -/
def frame (p : List Nat) : List Nat := u32be p.length ++ p

/-- Concatenated wire form of a sequence of length-prefixed buffers. -/
def framesOf (segs : List (List Nat)) : List Nat := (segs.map frame).flatten

/-- Reading a 4-byte big-endian length prefix from the stream, modelling
`struct.unpack_from(">L", self._socket.recv(4))`.  Fewer than 4 available
bytes means the blocking `recv` never completes (`none`). -/
def readU32 : List Nat → Option (Nat × List Nat)
  | b0 :: b1 :: b2 :: b3 :: rest =>
    some (b0 * 16777216 + b1 * 65536 + b2 * 256 + b3, rest)
  | _ => none

/-- The `while True` loop of `Socket._read` (lines 42-59 of `_socket.py`).
State: `buf` is the local `io.BytesIO` accumulator, `remaining` the declared
bytes of the current segment not yet received, `stream` the bytes the server
will deliver.  Each iteration first attempts `dec` (the
`fastavro.schemaless_reader` call on the seeked-to-0 buffer); on success the
value is returned and the local `buf` — trailing bytes included — is
discarded, while unread socket bytes (`stream`) remain.  On failure, a new
4-byte length prefix is read only when `remaining == 0`, then up to
`min remaining BUFFSIZE` bytes are received and appended.  `fuel` bounds the
number of iterations; `none` models an execution that never returns (blocked
`recv` or an endless loop). -/
def readLoop {V : Type} (dec : List Nat → Option V) :
    Nat → List Nat → Nat → List Nat → Option (V × List Nat)
  | 0, _, _, _ => none
  | fuel + 1, buf, remaining, stream =>
    match dec buf with
    | some v => some (v, stream)
    | none =>
      match (if remaining = 0 then readU32 stream else some (remaining, stream)) with
      | none => none
      | some (r, s1) =>
        let m := min r BUFFSIZE
        let chunk := s1.take m
        readLoop dec fuel (buf ++ chunk) (r - chunk.length) (s1.drop m)

/-- String literal `"NONE"` compared against `response["match"]`. -/
def noneStr : String := "NONE"

/-- String literal `"BOTH"` (a non-`"NONE"` match outcome). -/
def bothStr : String := "BOTH"

/-- Empty method name written during the handshake (`_write_method_name("")`). -/
def emptyName : String := ""

/-- Model of the external Avro codec (`fastavro`) together with the schema and
value literals that `_socket.py` passes to it.  `S` is the type of schema
documents, `V` of decoded/encoded Python values, `C` of the shared named-type
cache `self._named_types`.

* `parse s c` models `fastavro.parse_schema(s, expand=True, named_schemas=c)`:
  it returns the expanded schema and the updated cache.
* `write s v` models `fastavro.schemaless_writer(out, s, v)` into a fresh
  buffer; `none` models a raised exception.
* `readBuf s bs` models attempting `fastavro.schemaless_reader` on a buffer
  holding exactly `bs`; `none` models the `except` branch of `_read`.
* `writeRequest ch cp sh` models `schemaless_writer(request, handshake_request,
  record)` for the record built on lines 72-77 (fields `clientHash`,
  `clientProtocol`, `serverHash`, and the always-empty `meta`).
* `truthy` models Python truthiness of the decoded error flag (`if error:`).
* `matchOf`, `serverHashOf`, `serverProtocolOf` model the subscripted fields
  `response["match"]` (as the string it is compared with), and
  `response["serverHash"]`, `response["serverProtocol"]`. -/
structure Codec (S V C : Type) where
  parse : S → C → S × C
  write : S → V → Option (List Nat)
  readBuf : S → List Nat → Option V
  writeRequest : V → V → V → Option (List Nat)
  handshakeResponseSchema : S
  mapBytesSchema : S
  stringSchema : S
  unionStringSchema : S
  nullSchema : S
  boolSchema : S
  emptyMap : V
  ofString : String → V
  truthy : V → Bool
  matchOf : V → String
  serverHashOf : V → V
  serverProtocolOf : V → V

/-- One declared parameter of a method schema: the dicts in
`method_schema["request"]`, with their `"name"` and `"type"` entries. -/
structure Param (S : Type) where
  name : String
  type : S
deriving DecidableEq

/-- The per-method schema passed to `Socket.message`: `request` models the
optional `"request"` entry (`method_schema.get("request", [])`) and `response`
the optional `"response"` entry (`method_schema.get("response", "null")`). -/
structure MethodSchema (S : Type) where
  request : Option (List (Param S))
  response : Option S
deriving DecidableEq

/-- Exceptions a call can raise. `unboundLocal` is the `UnboundLocalError`
from referencing `data` before any branch assigned it; `encodeRaise` is an
exception out of `fastavro.schemaless_writer`; `remote msg` is the
`raise Exception(self._read(["string"]))` on a true error flag. -/
inductive PyErr (V : Type) where
  | unboundLocal
  | encodeRaise
  | remote (msg : V)
deriving DecidableEq

variable {S V C : Type}

/-- `Socket._read` (lines 26-59): parse the schema twice against the shared
cache, then run the accumulate-and-retry loop on a fresh local buffer.
Returns the decoded value, the updated cache, and the bytes of the stream the
loop never received. -/
def readValue (cd : Codec S V C) (schema : S) (c : C) (fuel : Nat) (stream : List Nat) :
    Option (V × C × List Nat) :=
  let p1 := cd.parse schema c
  let p2 := cd.parse p1.1 p1.2
  match readLoop (cd.readBuf p2.1) fuel [] 0 stream with
  | some (v, rest) => some (v, p2.2, rest)
  | none => none

/-- `Socket._write_metadata()` with the defaulted `meta = {}`: encode the
empty map under the literal `{"type": "map", "values": "bytes"}` schema (no
`parse_schema` call) and pass it to `_write`. -/
def writeMetadata (cd : Codec S V C) : Option (List Nat) :=
  cd.write cd.mapBytesSchema cd.emptyMap

/-- `Socket._write_method_name(method_name)`: encode the name under the
literal `"string"` schema (no `parse_schema` call) and pass it to `_write`. -/
def writeMethodName (cd : Codec S V C) (methodName : String) : Option (List Nat) :=
  cd.write cd.stringSchema (cd.ofString methodName)

/-- `Socket._write_terminator()`: a zero-length buffer. -/
def terminatorBuf : List Nat := []

/-- The argument-binding step shared by `_validate_parameters` and
`_write_parameters` (lines 130-134 / 148-152): prefer the named argument
matching `parameter["name"]`; else pop the next positional argument; else the
local `data` silently keeps its previous value (or stays unassigned). -/
def bindStep (kwargs : List (String × V)) (p : Param S) (args : List V)
    (data : Option V) : List V × Option V :=
  match List.lookup p.name kwargs with
  | some v => (args, some v)
  | none =>
    match args with
    | a :: rest => (rest, some a)
    | [] => (args, data)

/-- `Socket._validate_parameters` (lines 127-143): bind each declared
parameter, parse its `"type"` twice against the shared cache, and encode the
bound value into a local buffer that is then discarded — nothing is ever
written to the socket.  Referencing a never-assigned `data` raises
`UnboundLocalError`; a failing encode raises.  On success the updated cache
is returned. -/
def validateParams (cd : Codec S V C) :
    List (Param S) → List V → List (String × V) → Option V → C → Except (PyErr V) C
  | [], _, _, _, c => .ok c
  | p :: ps, args, kwargs, data, c =>
    let st := bindStep kwargs p args data
    let p1 := cd.parse p.type c
    let p2 := cd.parse p1.1 p1.2
    match st.2 with
    | none => .error .unboundLocal
    | some d =>
      match cd.write p2.1 d with
      | none => .error .encodeRaise
      | some _ => validateParams cd ps st.1 kwargs st.2 p2.2

/-- `Socket._write_parameters` (lines 145-162): same loop as
`_validate_parameters`, but each encoded buffer is passed to `_write`.
Returns the buffers emitted before any exception, paired with the outcome. -/
def writeParams (cd : Codec S V C) :
    List (Param S) → List V → List (String × V) → Option V → C →
      List (List Nat) × Except (PyErr V) C
  | [], _, _, _, c => ([], .ok c)
  | p :: ps, args, kwargs, data, c =>
    let st := bindStep kwargs p args data
    let p1 := cd.parse p.type c
    let p2 := cd.parse p1.1 p1.2
    match st.2 with
    | none => ([], .error .unboundLocal)
    | some d =>
      match cd.write p2.1 d with
      | none => ([], .error .encodeRaise)
      | some buf =>
        let rest := writeParams cd ps st.1 kwargs st.2 p2.2
        (buf :: rest.1, rest.2)

/-- Outcome of `Socket.message`: `written` always records the buffers handed
to `_write`, in order.  `diverge` models an execution that never returns (a
blocking read, or read fuel running out); `raised` a propagated exception
(`rest` is the part of the stream never consumed); `ok` a normal return. -/
inductive MsgOut (V C : Type) where
  | diverge (written : List (List Nat))
  | raised (written : List (List Nat)) (rest : List Nat) (e : PyErr V)
  | ok (written : List (List Nat)) (value : V) (cache : C) (rest : List Nat)
deriving DecidableEq

/-- The buffers a `message` call handed to `_write`, whatever its outcome. -/
def MsgOut.written : MsgOut V C → List (List Nat)
  | .diverge w => w
  | .raised w _ _ => w
  | .ok w _ _ _ => w

/-- `Socket.message` (lines 95-109): validate the parameters (no I/O), write
the empty metadata map, the method name, one buffer per parameter and the
zero-length terminator, then read the metadata map (discarded), the boolean
error flag, and either the union-of-string error (raised) or the value under
the declared response schema (default `"null"`). -/
def message (cd : Codec S V C) (rfuel : Nat) (methodName : String)
    (msch : MethodSchema S) (args : List V) (kwargs : List (String × V))
    (c : C) (stream : List Nat) : MsgOut V C :=
  match validateParams cd (msch.request.getD []) args kwargs none c with
  | .error e => .raised [] stream e
  | .ok c1 =>
    match writeMetadata cd with
    | none => .raised [] stream .encodeRaise
    | some metaB =>
      match writeMethodName cd methodName with
      | none => .raised [metaB] stream .encodeRaise
      | some nameB =>
        match writeParams cd (msch.request.getD []) args kwargs none c1 with
        | (pws, .error e) => .raised (metaB :: nameB :: pws) stream e
        | (pws, .ok c2) =>
          let written := metaB :: nameB :: (pws ++ [terminatorBuf])
          match readValue cd cd.mapBytesSchema c2 rfuel stream with
          | none => .diverge written
          | some (_, c3, s1) =>
            match readValue cd cd.boolSchema c3 rfuel s1 with
            | none => .diverge written
            | some (errv, c4, s2) =>
              if cd.truthy errv then
                match readValue cd cd.unionStringSchema c4 rfuel s2 with
                | none => .diverge written
                | some (msg, _, s3) => .raised written s3 (.remote msg)
              else
                match readValue cd (msch.response.getD cd.nullSchema) c4 rfuel s2 with
                | none => .diverge written
                | some (resp, c5, s3) => .ok written resp c5 s3

/-- Result of a completed `Socket.handshake` call: the buffers handed to
`_write` across all attempts, the returned value
(`response["serverProtocol"]` of the CURRENT level's response), the final
cache and the unconsumed stream. -/
structure HSResult (V C : Type) where
  written : List (List Nat)
  value : V
  cache : C
  rest : List Nat
deriving DecidableEq

/-- Outcome of `Socket.handshake`: `diverge` models an execution that never
returns (blocked read, or the unbounded `match == "NONE"` recursion running
past `fuel` attempts); `raised` a propagated encoder exception. -/
inductive HSOut (V C : Type) where
  | diverge
  | raised (written : List (List Nat))
  | ok (r : HSResult V C)
deriving DecidableEq

/-- The write phase of one `Socket.handshake` attempt (lines 70-81): encode
the handshake-request record, then the empty metadata map, then the empty
method name, handing each to `_write`.  No terminator buffer is written.
Returns the emitted buffers and whether all three encodes succeeded. -/
def handshakeSend (cd : Codec S V C) (ch cp sh : V) : List (List Nat) × Bool :=
  match cd.writeRequest ch cp sh with
  | none => ([], false)
  | some reqB =>
    match writeMetadata cd with
    | none => ([reqB], false)
    | some metaB =>
      match writeMethodName cd emptyName with
      | none => ([reqB, metaB], false)
      | some nameB => ([reqB, metaB, nameB], true)

/-- `Socket.handshake` (lines 67-93): send the request envelope, read the
handshake response, then the fixed filler reads (metadata map, boolean,
null).  If `response["match"] == "NONE"`, recurse with the server's hash and
protocol as the new client values; the recursive call's RETURN VALUE IS
DISCARDED (the source has no `return` on line 88), and this level returns its
own `response["serverProtocol"]`.  `fuel` bounds the recursion depth,
`rfuel` the iterations of each `_read`. -/
def handshake (cd : Codec S V C) :
    Nat → Nat → C → List Nat → V → V → V → HSOut V C
  | 0, _, _, _, _, _, _ => .diverge
  | fuel + 1, rfuel, c, stream, ch, cp, sh =>
    match handshakeSend cd ch cp sh with
    | (ws, false) => .raised ws
    | (ws, true) =>
      match readValue cd cd.handshakeResponseSchema c rfuel stream with
      | none => .diverge
      | some (resp, c1, s1) =>
        match readValue cd cd.mapBytesSchema c1 rfuel s1 with
        | none => .diverge
        | some (_, c2, s2) =>
          match readValue cd cd.boolSchema c2 rfuel s2 with
          | none => .diverge
          | some (_, c3, s3) =>
            match readValue cd cd.nullSchema c3 rfuel s3 with
            | none => .diverge
            | some (_, c4, s4) =>
              if cd.matchOf resp = noneStr then
                match handshake cd fuel rfuel c4 s4 (cd.serverHashOf resp)
                    (cd.serverProtocolOf resp) (cd.serverHashOf resp) with
                | .diverge => .diverge
                | .raised w => .raised (ws ++ w)
                | .ok r => .ok ⟨ws ++ r.written, cd.serverProtocolOf resp, r.cache, r.rest⟩
              else
                .ok ⟨ws, cd.serverProtocolOf resp, c4, s4⟩

/-- Binding of arguments to declared parameters as the spec words it
(§4.4 step 1): for each declared parameter, prefer a named argument matching
its name; otherwise consume the next unused positional argument in
declaration order; a parameter bound by neither has no value (`none`).
Spec-side definition used to state refinement claims. -/
def bindSpec : List (Param S) → List V → List (String × V) → Option (List V)
  | [], _, _ => some []
  | p :: ps, args, kwargs =>
    match List.lookup p.name kwargs with
    | some v => (bindSpec ps args kwargs).map (fun vs => v :: vs)
    | none =>
      match args with
      | a :: rest => (bindSpec ps rest kwargs).map (fun vs => a :: vs)
      | [] => none

/-- Parameter encoding as the spec words it (§4.4 step 2, §4.2): each bound
value is encoded under its own parameter's schema, resolved twice in sequence
against the shared cache, yielding one buffer per parameter in declaration
order.  Spec-side definition used to state refinement claims. -/
def encodeParamsSpec (cd : Codec S V C) :
    C → List (Param S) → List V → Option (List (List Nat) × C)
  | c, [], [] => some ([], c)
  | c, p :: ps, v :: vs =>
    let p1 := cd.parse p.type c
    let p2 := cd.parse p1.1 p1.2
    match cd.write p2.1 v with
    | none => none
    | some buf =>
      (encodeParamsSpec cd p2.2 ps vs).map (fun r => (buf :: r.1, r.2))
  | _, _, _ => none

/-- Schema tag used for the handshake-response schema in concrete codecs. -/
def sResp : Nat := 1

/-- Schema tag for the literal metadata map schema in concrete codecs. -/
def sMap : Nat := 2

/-- Schema tag for the literal `"string"` schema in concrete codecs. -/
def sStr : Nat := 3

/-- Schema tag for the literal `["string"]` union schema in concrete codecs. -/
def sUnion : Nat := 4

/-- Schema tag for the literal `"null"` schema in concrete codecs. -/
def sNull : Nat := 5

/-- Schema tag for the literal `"boolean"` schema in concrete codecs. -/
def sBool : Nat := 6

/-- Concrete executable codec over `Nat` schemas, values and cache used to
exercise the socket operations on closed inputs.  Decoding consumes the first
byte of the buffer (empty buffer: not yet decodable), except under the null
schema, which — like Avro's zero-byte null encoding — succeeds on any buffer.
Encoding a value emits the schema tag followed by the value, making the
schema actually used for an encode observable in the written buffer. -/
def cdBase : Codec Nat Nat Nat where
  parse s c := (s, c)
  write s v := some [s, v]
  readBuf s bs := if s = sNull then some 0 else bs.head?
  writeRequest a b c := some [a, b, c]
  handshakeResponseSchema := sResp
  mapBytesSchema := sMap
  stringSchema := sStr
  unionStringSchema := sUnion
  nullSchema := sNull
  boolSchema := sBool
  emptyMap := 0
  ofString _ := 90
  truthy v := v != 0
  matchOf v := if v < 100 then noneStr else bothStr
  serverHashOf v := v + 2000
  serverProtocolOf v := v + 1000

/-- Variant of `cdBase` whose decoded handshake responses always have
`match == "NONE"`: a server that rejects every protocol proposal. -/
def cdNone : Codec Nat Nat Nat :=
  { cdBase with matchOf := fun _ => noneStr }

/-- Variant of `cdBase` with a non-trivial schema resolver (`parse` shifts the
schema tag by 100), making it observable in the written buffers whether an
encode used the raw or the resolved schema. -/
def cdShift : Codec Nat Nat Nat :=
  { cdBase with parse := fun s c => (s + 100, c) }

/-- Variant of `cdBase` whose decoder needs two buffered bytes (returning
their big-endian combination), used to exercise multi-segment reads. -/
def cdPair : Codec Nat Nat Nat :=
  { cdBase with readBuf := fun _ bs =>
      match bs with
      | a :: b :: _ => some (a * 256 + b)
      | _ => none }

/-- Variant of `cdBase` whose encoder raises on schema tag 11, used to
exercise the validation-failure path. -/
def cdFail : Codec Nat Nat Nat :=
  { cdBase with write := fun s v => if s = 11 then none else some [s, v] }

/-- Name literal for a first parameter in concrete method schemas. -/
def aStr : String := "a"

/-- Name literal for a second parameter in concrete method schemas. -/
def bStr : String := "b"

/-- Concrete two-parameter method schema (parameter schema tags 10 and 11). -/
def msch2 : MethodSchema Nat :=
  ⟨some [⟨aStr, 10⟩, ⟨bStr, 11⟩], some sStr⟩

/-- Concrete parameterless method schema. -/
def msch0 : MethodSchema Nat :=
  ⟨none, some sStr⟩

theorem readU32_u32be (n : Nat) (h : n < 4294967296) (rest : List Nat) :
    readU32 (u32be n ++ rest) = some (n, rest) := by
  simp only [u32be, readU32, List.cons_append, List.nil_append]
  have : n / 16777216 % 256 * 16777216 + n / 65536 % 256 * 65536 + n / 256 % 256 * 256 + n % 256
      = n := by omega
  rw [this]

/-- Main loop invariant run: if `dec` fails on every proper prefix of `enc`
and succeeds (with `v`) on `enc` itself, then from a state where the
accumulator holds the first `k` bytes of `enc`, the current segment still owes
`pend`, and the remaining bytes of `enc` arrive as the length-prefixed
segments `segs`, the loop returns `v` and leaves exactly `tail` unread. -/
theorem readLoop_run {V : Type} (dec : List Nat → Option V) (enc : List Nat) (v : V)
    (hpre : ∀ n, n < enc.length → dec (enc.take n) = none)
    (hfull : dec enc = some v) :
    ∀ (fuel k : Nat) (pend : List Nat) (segs : List (List Nat)) (tail : List Nat),
      k ≤ enc.length →
      enc.drop k = pend ++ segs.flatten →
      (∀ s ∈ segs, s.length < 4294967296) →
      (∀ s ∈ segs, s ≠ []) →
      (pend ++ framesOf segs).length + 1 ≤ fuel →
      readLoop dec fuel (enc.take k) pend.length (pend ++ framesOf segs ++ tail) =
        some (v, tail) := by
  intro fuel
  induction fuel with
  | zero => intro k pend segs tail _ _ _ _ hfuel; omega
  | succ fuel ih =>
    intro k pend segs tail hk hdrop hlen hne hfuel
    by_cases hcomplete : k = enc.length
    · -- the accumulator already holds all of `enc`: decode succeeds
      subst hcomplete
      have hd0 : enc.drop enc.length = [] := by simp
      rw [hd0] at hdrop
      have hpend : pend = [] := by
        cases pend with
        | nil => rfl
        | cons a l => simp at hdrop
      subst hpend
      have hflat : segs.flatten = [] := by simpa using hdrop.symm
      have hsegs : segs = [] := by
        cases segs with
        | nil => rfl
        | cons s ss =>
          have hs := hne s (by simp)
          simp only [List.flatten_cons, List.append_eq_nil] at hflat
          exact absurd hflat.1 hs
      subst hsegs
      simp [readLoop, hfull, framesOf]
    · have hklt : k < enc.length := lt_of_le_of_ne hk hcomplete
      have hdec : dec (enc.take k) = none := hpre k hklt
      have hdroplen : enc.length - k = pend.length + segs.flatten.length := by
        have := congrArg List.length hdrop
        simpa using this
      cases pend with
      | nil =>
        -- nothing pending: read the next segment's length prefix
        cases segs with
        | nil => simp at hdroplen; omega
        | cons s ss =>
          have hslen := hlen s (by simp)
          have hsne := hne s (by simp)
          have hsle : s.length ≤ enc.length - k := by
            simp only [List.flatten_cons, List.length_append] at hdroplen
            omega
          have hdrop2 : enc.drop k = s ++ ss.flatten := by simpa using hdrop
          set m := min s.length BUFFSIZE with hm
          have hmle : m ≤ s.length := min_le_left _ _
          have hmpos : 1 ≤ m := by
            have : 1 ≤ s.length := List.length_pos.mpr hsne
            simp only [hm, BUFFSIZE]
            omega
          have hstream : ([] : List Nat) ++ framesOf (s :: ss) ++ tail
              = u32be s.length ++ (s ++ (framesOf ss ++ tail)) := by
            simp [framesOf, frame, List.append_assoc]
          rw [hstream]
          have htake : (s ++ (framesOf ss ++ tail)).take m = s.take m :=
            List.take_append_of_le_length hmle
          have hdrop3 : (s ++ (framesOf ss ++ tail)).drop m
              = s.drop m ++ (framesOf ss ++ tail) :=
            List.drop_append_of_le_length hmle
          have hbuf : enc.take k ++ s.take m = enc.take (k + m) := by
            rw [List.take_add, hdrop2, List.take_append_of_le_length hmle]
          have hlentake : (s.take m).length = m := by
            simp [List.length_take, hmle]
          simp only [readLoop, hdec, List.length_nil, if_true, ite_true,
            readU32_u32be s.length hslen]
          rw [htake, hdrop3, hbuf, hlentake]
          have hrec := ih (k + m) (s.drop m) ss tail
            (by omega)
            (by rw [← List.drop_drop, hdrop2, List.drop_append_of_le_length hmle])
            (fun t ht => hlen t (by simp [ht]))
            (fun t ht => hne t (by simp [ht]))
            (by
              simp only [List.length_append, List.length_nil, framesOf, List.map_cons,
                List.flatten_cons, frame, u32be] at hfuel ⊢
              simp only [List.length_drop, List.length_append, List.length_cons]
              omega)
          simpa [List.length_drop, List.append_assoc] using hrec
      | cons p pend0 =>
        -- bytes of the current segment are still pending: receive a chunk
        set pend := p :: pend0 with hpenddef
        have hpendne : pend ≠ [] := by simp [hpenddef]
        have hpendlen : pend.length ≠ 0 := by simp [hpenddef]
        set m := min pend.length BUFFSIZE with hm
        have hmle : m ≤ pend.length := min_le_left _ _
        have hmpos : 1 ≤ m := by
          have : 1 ≤ pend.length := List.length_pos.mpr hpendne
          simp only [hm, BUFFSIZE]
          omega
        have hpendpre : enc.drop k = pend ++ segs.flatten := hdrop
        have htake : (pend ++ (framesOf segs ++ tail)).take m = pend.take m :=
          List.take_append_of_le_length hmle
        have hdrop3 : (pend ++ (framesOf segs ++ tail)).drop m
            = pend.drop m ++ (framesOf segs ++ tail) :=
          List.drop_append_of_le_length hmle
        have hbuf : enc.take k ++ pend.take m = enc.take (k + m) := by
          rw [List.take_add, hpendpre, List.take_append_of_le_length hmle]
        have hlentake : (pend.take m).length = m := by
          simp [List.length_take, hmle]
        simp only [readLoop, hdec, if_neg hpendlen, List.append_assoc]
        rw [htake, hdrop3, hbuf, hlentake]
        have hrec := ih (k + m) (pend.drop m) segs tail
          (by
            have : pend.length + segs.flatten.length = enc.length - k := hdroplen.symm
            omega)
          (by rw [← List.drop_drop, hpendpre, List.drop_append_of_le_length hmle])
          hlen hne
          (by
            simp only [List.length_append, List.length_drop] at hfuel ⊢
            omega)
        simpa [List.length_drop, List.append_assoc] using hrec


/-- When the spec-side binding of arguments succeeds, the source's
`_write_parameters` loop emits exactly the spec-side buffers, whatever stale
`data` value the loop inherits (the stale branch is never taken). -/
theorem writeParams_of_spec (cd : Codec S V C) :
    ∀ (params : List (Param S)) (args : List V) (kwargs : List (String × V))
      (data : Option V) (vs : List V) (c : C) (bufs : List (List Nat)) (c2 : C),
      bindSpec params args kwargs = some vs →
      encodeParamsSpec cd c params vs = some (bufs, c2) →
      writeParams cd params args kwargs data c = (bufs, Except.ok c2) := by
  intro params
  induction params with
  | nil =>
    intro args kwargs data vs c bufs c2 hb he
    simp only [bindSpec, Option.some_inj] at hb
    subst hb
    simp only [encodeParamsSpec, Option.some_inj, Prod.mk.injEq] at he
    obtain ⟨h1, h2⟩ := he
    subst h1; subst h2
    rfl
  | cons p ps ih =>
    intro args kwargs data vs c bufs c2 hb he
    cases hlk : List.lookup p.name kwargs with
    | some v =>
      simp only [bindSpec, hlk] at hb
      cases hb2 : bindSpec ps args kwargs with
      | none => rw [hb2] at hb; simp at hb
      | some vs0 =>
        rw [hb2] at hb
        simp at hb
        subst hb
        simp only [encodeParamsSpec] at he
        cases hw : cd.write (cd.parse (cd.parse p.type c).1 (cd.parse p.type c).2).1 v with
        | none => rw [hw] at he; simp at he
        | some buf =>
          rw [hw] at he
          cases he2 : encodeParamsSpec cd (cd.parse (cd.parse p.type c).1
              (cd.parse p.type c).2).2 ps vs0 with
          | none => rw [he2] at he; simp at he
          | some r =>
            rw [he2] at he
            simp at he
            obtain ⟨h1, h2⟩ := he
            subst h1; subst h2
            simp only [writeParams, bindStep, hlk, hw,
              ih args kwargs (some v) vs0 _ r.1 r.2 hb2 he2]
    | none =>
      cases args with
      | nil => simp [bindSpec, hlk] at hb
      | cons a rest =>
        simp only [bindSpec, hlk] at hb
        cases hb2 : bindSpec ps rest kwargs with
        | none => rw [hb2] at hb; simp at hb
        | some vs0 =>
          rw [hb2] at hb
          simp at hb
          subst hb
          simp only [encodeParamsSpec] at he
          cases hw : cd.write (cd.parse (cd.parse p.type c).1 (cd.parse p.type c).2).1 a with
          | none => rw [hw] at he; simp at he
          | some buf =>
            rw [hw] at he
            cases he2 : encodeParamsSpec cd (cd.parse (cd.parse p.type c).1
                (cd.parse p.type c).2).2 ps vs0 with
            | none => rw [he2] at he; simp at he
            | some r =>
              rw [he2] at he
              simp at he
              obtain ⟨h1, h2⟩ := he
              subst h1; subst h2
              simp only [writeParams, bindStep, hlk, hw,
                ih rest kwargs (some a) vs0 _ r.1 r.2 hb2 he2]

/-- When the spec-side binding succeeds and every encode succeeds,
`_validate_parameters` succeeds, returning the cache evolved by the
per-parameter double resolutions. -/
theorem validateParams_of_spec (cd : Codec S V C) :
    ∀ (params : List (Param S)) (args : List V) (kwargs : List (String × V))
      (data : Option V) (vs : List V) (c : C) (bufs : List (List Nat)) (c2 : C),
      bindSpec params args kwargs = some vs →
      encodeParamsSpec cd c params vs = some (bufs, c2) →
      validateParams cd params args kwargs data c = Except.ok c2 := by
  intro params
  induction params with
  | nil =>
    intro args kwargs data vs c bufs c2 hb he
    simp only [bindSpec, Option.some_inj] at hb
    subst hb
    simp only [encodeParamsSpec, Option.some_inj, Prod.mk.injEq] at he
    obtain ⟨h1, h2⟩ := he
    subst h1; subst h2
    rfl
  | cons p ps ih =>
    intro args kwargs data vs c bufs c2 hb he
    cases hlk : List.lookup p.name kwargs with
    | some v =>
      simp only [bindSpec, hlk] at hb
      cases hb2 : bindSpec ps args kwargs with
      | none => rw [hb2] at hb; simp at hb
      | some vs0 =>
        rw [hb2] at hb
        simp at hb
        subst hb
        simp only [encodeParamsSpec] at he
        cases hw : cd.write (cd.parse (cd.parse p.type c).1 (cd.parse p.type c).2).1 v with
        | none => rw [hw] at he; simp at he
        | some buf =>
          rw [hw] at he
          cases he2 : encodeParamsSpec cd (cd.parse (cd.parse p.type c).1
              (cd.parse p.type c).2).2 ps vs0 with
          | none => rw [he2] at he; simp at he
          | some r =>
            rw [he2] at he
            simp at he
            obtain ⟨h1, h2⟩ := he
            subst h1; subst h2
            simp only [validateParams, bindStep, hlk, hw,
              ih args kwargs (some v) vs0 _ r.1 r.2 hb2 he2]
    | none =>
      cases args with
      | nil => simp [bindSpec, hlk] at hb
      | cons a rest =>
        simp only [bindSpec, hlk] at hb
        cases hb2 : bindSpec ps rest kwargs with
        | none => rw [hb2] at hb; simp at hb
        | some vs0 =>
          rw [hb2] at hb
          simp at hb
          subst hb
          simp only [encodeParamsSpec] at he
          cases hw : cd.write (cd.parse (cd.parse p.type c).1 (cd.parse p.type c).2).1 a with
          | none => rw [hw] at he; simp at he
          | some buf =>
            rw [hw] at he
            cases he2 : encodeParamsSpec cd (cd.parse (cd.parse p.type c).1
                (cd.parse p.type c).2).2 ps vs0 with
            | none => rw [he2] at he; simp at he
            | some r =>
              rw [he2] at he
              simp at he
              obtain ⟨h1, h2⟩ := he
              subst h1; subst h2
              simp only [validateParams, bindStep, hlk, hw,
                ih rest kwargs (some a) vs0 _ r.1 r.2 hb2 he2]

/-- C9 (confirmed): for every value whose encoding is delivered to `_read`,
splitting the encoding across two or more length-prefixed wire buffers
followed by a zero-length terminator buffer yields the same decoded result
as delivering it in one length-prefixed buffer.  `enc` is the value's
encoding: the (doubly resolved) decoder fails on every proper prefix and
returns `v` on all of `enc`.  In the multi-segment delivery the loop returns
`v` leaving the terminator (and `tail1`) unread; in the single-buffer
delivery it returns the same `v`.  The read loop appends successive segment
payloads to one accumulator and retries the decode, so the decoded result is
invariant under re-segmentation. -/
theorem thmC9 (cd : Codec S V C) (schema : S) (c : C) (enc : List Nat) (v : V)
    (segs : List (List Nat)) (tail1 tail2 : List Nat)
    (hjoin : segs.flatten = enc)
    (hsegs2 : 2 ≤ segs.length)
    (hne : ∀ s ∈ segs, s ≠ [])
    (hlen : ∀ s ∈ segs, s.length < 4294967296)
    (hlenE : enc.length < 4294967296)
    (hpre : ∀ n, n < enc.length →
      cd.readBuf (cd.parse (cd.parse schema c).1 (cd.parse schema c).2).1 (enc.take n) = none)
    (hfull : cd.readBuf (cd.parse (cd.parse schema c).1 (cd.parse schema c).2).1 enc
      = some v) :
    readValue cd schema c ((framesOf segs).length + 1) (framesOf segs ++ frame [] ++ tail1)
      = some (v, (cd.parse (cd.parse schema c).1 (cd.parse schema c).2).2, frame [] ++ tail1)
    ∧ readValue cd schema c ((frame enc).length + 1) (frame enc ++ tail2)
      = some (v, (cd.parse (cd.parse schema c).1 (cd.parse schema c).2).2, tail2) := by
  have hence : enc ≠ [] := by
    cases segs with
    | nil => simp at hsegs2
    | cons s ss =>
      intro h
      rw [← hjoin] at h
      simp only [List.flatten_cons, List.append_eq_nil] at h
      exact hne s (by simp) h.1
  constructor
  · have h := readLoop_run
      (cd.readBuf (cd.parse (cd.parse schema c).1 (cd.parse schema c).2).1) enc v hpre hfull
      ((framesOf segs).length + 1) 0 [] segs (frame [] ++ tail1) (Nat.zero_le _)
      (by simpa using hjoin.symm) hlen hne (by simp)
    simp only [List.take_zero, List.length_nil, List.nil_append] at h
    simp only [readValue]
    rw [List.append_assoc, h]
  · have hne1 : ∀ s ∈ [enc], s ≠ [] := by
      intro s hs
      simp only [List.mem_singleton] at hs
      subst hs
      exact hence
    have hlen1 : ∀ s ∈ [enc], s.length < 4294967296 := by
      intro s hs
      simp only [List.mem_singleton] at hs
      subst hs
      exact hlenE
    have h := readLoop_run
      (cd.readBuf (cd.parse (cd.parse schema c).1 (cd.parse schema c).2).1) enc v hpre hfull
      ((frame enc).length + 1) 0 [] [enc] tail2 (Nat.zero_le _)
      (by simp) hlen1 hne1 (by simp [framesOf])
    simp only [List.take_zero, List.length_nil, List.nil_append, framesOf, List.map_cons,
      List.map_nil, List.flatten_cons, List.flatten_nil, List.append_nil] at h
    simp only [readValue]
    rw [h]

/-- Witness for C9 at a concrete two-byte encoding delivered as two segments
and as one buffer. -/
theorem thmC9_w :
    readValue cdPair sStr 0 ((framesOf [[7], [9]]).length + 1)
        (framesOf [[7], [9]] ++ frame [] ++ [])
      = some (1801, (cdPair.parse (cdPair.parse sStr 0).1 (cdPair.parse sStr 0).2).2,
          frame [] ++ [])
    ∧ readValue cdPair sStr 0 ((frame [7, 9]).length + 1) (frame [7, 9] ++ [])
      = some (1801, (cdPair.parse (cdPair.parse sStr 0).1 (cdPair.parse sStr 0).2).2, []) :=
  thmC9 cdPair sStr 0 [7, 9] 1801 [[7], [9]] [] [] rfl (by decide) (by decide) (by decide)
    (by decide)
    (by
      intro n hn
      have hn2 : n < 2 := by simpa using hn
      interval_cases n <;> rfl)
    rfl

/-- C2 (amended): when the accumulated bytes decode successfully but leave
undecoded trailing bytes, `_read` succeeds — but the excess bytes do NOT
remain buffered for the next call: the accumulator is a per-call local
`io.BytesIO`, so the trailing bytes are discarded with it, and the next read
starts from the stream position after the consumed frame (`tail`).  Here one
frame carries `enc ++ junk`; decoding succeeds once the frame is buffered,
the returned unread stream is exactly `tail`, and `junk` is gone. -/
theorem thmC2 (cd : Codec S V C) (schema : S) (c : C) (enc junk : List Nat) (v : V)
    (tail : List Nat) (fuel : Nat)
    (hempty : cd.readBuf (cd.parse (cd.parse schema c).1 (cd.parse schema c).2).1 [] = none)
    (hfull : cd.readBuf (cd.parse (cd.parse schema c).1 (cd.parse schema c).2).1 (enc ++ junk)
      = some v)
    (hlen : (enc ++ junk).length ≤ BUFFSIZE)
    (hlen2 : (enc ++ junk).length < 4294967296)
    (hfuel : 2 ≤ fuel) :
    readValue cd schema c fuel (frame (enc ++ junk) ++ tail)
      = some (v, (cd.parse (cd.parse schema c).1 (cd.parse schema c).2).2, tail) := by
  obtain ⟨f, rfl⟩ : ∃ f, fuel = f + 2 := ⟨fuel - 2, by omega⟩
  simp only [readValue]
  have hstream : frame (enc ++ junk) ++ tail
      = u32be (enc ++ junk).length ++ ((enc ++ junk) ++ tail) := by
    simp [frame, List.append_assoc]
  rw [hstream]
  have hm : min (enc ++ junk).length BUFFSIZE = (enc ++ junk).length :=
    min_eq_left hlen
  have h1 : readU32 (u32be (enc ++ junk).length ++ ((enc ++ junk) ++ tail))
      = some ((enc ++ junk).length, (enc ++ junk) ++ tail) :=
    readU32_u32be (enc ++ junk).length hlen2 _
  simp only [readLoop, hempty, if_true, ite_true, h1, hm, List.take_left, List.drop_left,
    List.nil_append, hfull]

/-- Witness for C2 (amended): a two-byte value plus one junk byte in a single
frame; the junk byte is dropped and the next-read position is `tail`. -/
theorem thmC2_w :
    readValue cdPair sStr 0 2 (frame ([7, 9] ++ [5]) ++ [1, 2, 3])
      = some (1801, (cdPair.parse (cdPair.parse sStr 0).1 (cdPair.parse sStr 0).2).2,
          [1, 2, 3]) :=
  thmC2 cdPair sStr 0 [7, 9] [5] 1801 [1, 2, 3] 2 rfl rfl (by decide) (by decide) (by decide)

/-- Counterexample to C2 as stated: deliver one frame holding the encoding
`[7, 9]` followed by the excess byte `5`, then a second frame `[7, 8]`.  The
first `_read` succeeds (value `1801 = 7 * 256 + 9`) and the second `_read`
decodes `1800 = 7 * 256 + 8` from the new frame alone.  Had the excess byte
remained buffered and been consumed before new frames — as the claim states —
the second read would have decoded `5 * 256 + 7 = 1287` from `[5, 7, ...]`.
The claim is therefore false at this input. -/
theorem cexC2 :
    readValue cdPair sStr 0 9 (frame [7, 9, 5] ++ frame [7, 8])
      = some (1801, 0, [0, 0, 0, 2, 7, 8])
    ∧ readValue cdPair sStr 0 9 [0, 0, 0, 2, 7, 8] = some (1800, 0, [])
    ∧ (1800 : Nat) ≠ 5 * 256 + 7 := by
  refine ⟨by decide, by decide, by decide⟩

/-- C1 (amended): on every handshake invocation the bytes written to the
socket before any response is read are, in order: one length-prefixed buffer
with the encoded handshake-request record, one with the encoded empty
metadata map, and one with the encoded empty method-name string — and NO
zero-length terminator buffer follows them (`Socket.handshake` never calls
`_write_terminator`).  The first conjunct fixes the whole send phase; the
second shows a non-retrying call writes exactly these three buffers. -/
theorem thmC1 (cd : Codec S V C) (fuel rfuel : Nat) (c : C) (stream : List Nat)
    (ch cp sh : V) (reqB metaB nameB : List Nat) (resp : V) (c1 : C) (s1 : List Nat)
    (vm : V) (c2 : C) (s2 : List Nat) (vb : V) (c3 : C) (s3 : List Nat)
    (vn : V) (c4 : C) (s4 : List Nat)
    (hreq : cd.writeRequest ch cp sh = some reqB)
    (hmeta : writeMetadata cd = some metaB)
    (hname : writeMethodName cd emptyName = some nameB)
    (h1 : readValue cd cd.handshakeResponseSchema c rfuel stream = some (resp, c1, s1))
    (h2 : readValue cd cd.mapBytesSchema c1 rfuel s1 = some (vm, c2, s2))
    (h3 : readValue cd cd.boolSchema c2 rfuel s2 = some (vb, c3, s3))
    (h4 : readValue cd cd.nullSchema c3 rfuel s3 = some (vn, c4, s4))
    (hmatch : cd.matchOf resp ≠ noneStr) :
    handshakeSend cd ch cp sh = ([reqB, metaB, nameB], true)
    ∧ handshake cd (fuel + 1) rfuel c stream ch cp sh =
        .ok ⟨[reqB, metaB, nameB], cd.serverProtocolOf resp, c4, s4⟩ := by
  have hsend : handshakeSend cd ch cp sh = ([reqB, metaB, nameB], true) := by
    simp only [handshakeSend, hreq, hmeta, hname]
  refine ⟨hsend, ?_⟩
  simp only [handshake, hsend, h1, h2, h3, h4, if_neg hmatch]

/-- Witness for C1 (amended): a concrete matched handshake writes exactly the
three buffers, with no terminator. -/
theorem thmC1_w :
    handshakeSend cdBase 0 0 0 = ([[0, 0, 0], [2, 0], [3, 90]], true)
    ∧ handshake cdBase 1 3 0 (frame [107] ++ frame [0] ++ frame [0]) 0 0 0 =
        .ok ⟨[[0, 0, 0], [2, 0], [3, 90]], cdBase.serverProtocolOf 107, 0, []⟩ :=
  thmC1 cdBase 0 3 0 (frame [107] ++ frame [0] ++ frame [0]) 0 0 0
    [0, 0, 0] [2, 0] [3, 90] 107 0 [0, 0, 0, 1, 0, 0, 0, 0, 1, 0] 0 0 [0, 0, 0, 1, 0]
    0 0 [] 0 0 []
    rfl rfl rfl (by decide) (by decide) (by decide) (by decide) (by decide)

/-- Counterexample to C1 as stated: a concrete handshake invocation writes
exactly three buffers — handshake request, empty metadata map, empty method
name — and no zero-length terminator buffer is ever handed to `_write`,
contradicting the claimed final terminator. -/
theorem cexC1 :
    handshake cdBase 1 3 0 (frame [107] ++ frame [0] ++ frame [0]) 0 0 0 =
        .ok ⟨[[0, 0, 0], [2, 0], [3, 90]], 1107, 0, []⟩
    ∧ terminatorBuf ∉ [[0, 0, 0], [2, 0], [3, 90]] := by
  refine ⟨by decide, by decide⟩

/-- C3 (amended): on a `match == "NONE"` response the client re-invokes the
handshake with the server-supplied `serverHash` as the new `clientHash`, the
server-supplied `serverProtocol` as the new `clientProtocol`, and
`serverHash` again as the new `serverHash` (first part of the claim, which
holds).  However, the recursive call's return value is DISCARDED (line 88 of
the source has no `return`): each invocation returns its OWN response's
`serverProtocol`, so after a retry the caller receives the NONE response's
`serverProtocol`, not the `serverProtocol` of the later `"BOTH"`/`"CLIENT"`
response.  Only when the invocation's own first response already has
`match != "NONE"` is that response's `serverProtocol` returned. -/
theorem thmC3 (cd : Codec S V C) (fuel rfuel : Nat) (c : C) (stream : List Nat)
    (ch cp sh : V) (reqB metaB nameB : List Nat) (resp : V) (c1 : C) (s1 : List Nat)
    (vm : V) (c2 : C) (s2 : List Nat) (vb : V) (c3 : C) (s3 : List Nat)
    (vn : V) (c4 : C) (s4 : List Nat)
    (hreq : cd.writeRequest ch cp sh = some reqB)
    (hmeta : writeMetadata cd = some metaB)
    (hname : writeMethodName cd emptyName = some nameB)
    (h1 : readValue cd cd.handshakeResponseSchema c rfuel stream = some (resp, c1, s1))
    (h2 : readValue cd cd.mapBytesSchema c1 rfuel s1 = some (vm, c2, s2))
    (h3 : readValue cd cd.boolSchema c2 rfuel s2 = some (vb, c3, s3))
    (h4 : readValue cd cd.nullSchema c3 rfuel s3 = some (vn, c4, s4)) :
    (cd.matchOf resp ≠ noneStr →
      handshake cd (fuel + 1) rfuel c stream ch cp sh =
        .ok ⟨[reqB, metaB, nameB], cd.serverProtocolOf resp, c4, s4⟩)
    ∧ (cd.matchOf resp = noneStr →
      ∀ r : HSResult V C,
        handshake cd fuel rfuel c4 s4 (cd.serverHashOf resp) (cd.serverProtocolOf resp)
            (cd.serverHashOf resp) = .ok r →
        handshake cd (fuel + 1) rfuel c stream ch cp sh =
          .ok ⟨[reqB, metaB, nameB] ++ r.written, cd.serverProtocolOf resp, r.cache,
            r.rest⟩) := by
  have hsend : handshakeSend cd ch cp sh = ([reqB, metaB, nameB], true) := by
    simp only [handshakeSend, hreq, hmeta, hname]
  constructor
  · intro hmatch
    simp only [handshake, hsend, h1, h2, h3, h4, if_neg hmatch]
  · intro hmatch r hrec
    simp only [handshake, hsend, h1, h2, h3, h4, if_pos hmatch, hrec]

/-- Witness for C3 (amended), exercising the retry branch: the recursive
attempt succeeds with value `1107`, yet the outer invocation returns its own
NONE response's `serverProtocol` (`1007`), with the retry request visible in
the written trace. -/
theorem thmC3_w :
    handshake cdBase 2 3 0
        (frame [7] ++ frame [0] ++ frame [0] ++ (frame [107] ++ frame [0] ++ frame [0]))
        0 0 0 =
      .ok ⟨[[0, 0, 0], [2, 0], [3, 90]] ++ [[2007, 1007, 2007], [2, 0], [3, 90]],
        cdBase.serverProtocolOf 7, 0, []⟩ :=
  (thmC3 cdBase 1 3 0
      (frame [7] ++ frame [0] ++ frame [0] ++ (frame [107] ++ frame [0] ++ frame [0]))
      0 0 0 [0, 0, 0] [2, 0] [3, 90] 7 0
      ([0, 0, 0, 1, 0, 0, 0, 0, 1, 0] ++ (frame [107] ++ frame [0] ++ frame [0])) 0 0
      ([0, 0, 0, 1, 0] ++ (frame [107] ++ frame [0] ++ frame [0])) 0 0
      (frame [107] ++ frame [0] ++ frame [0]) 0 0 (frame [107] ++ frame [0] ++ frame [0])
      rfl rfl rfl (by decide) (by decide) (by decide) (by decide)).2 rfl
    ⟨[[2007, 1007, 2007], [2, 0], [3, 90]], 1107, 0, []⟩ (by decide)

/-- Counterexample to C3 as stated: with a first response of
`match == "NONE"` carrying `serverProtocol = 1007` and a second response of
`match == "BOTH"` carrying `serverProtocol = 1107`, the handshake retries
with the server's hash/protocol (visible as the second written request
`[2007, 1007, 2007]`), but returns `1007` — the NONE response's
`serverProtocol` — not the agreed `1107` of the `"BOTH"` response, because
the recursive call's result is discarded. -/
theorem cexC3 :
    handshake cdBase 2 3 0
        (frame [7] ++ frame [0] ++ frame [0] ++ frame [107] ++ frame [0] ++ frame [0])
        0 0 0 =
      .ok ⟨[[0, 0, 0], [2, 0], [3, 90], [2007, 1007, 2007], [2, 0], [3, 90]], 1007, 0, []⟩
    ∧ cdBase.serverProtocolOf 107 = 1107
    ∧ (1007 : Nat) ≠ 1107 := by
  refine ⟨by decide, by decide, by decide⟩

/-- C5 (confirmed): the handshake imposes no retry limit.  Against a server
whose every decoded response has `match == "NONE"` (and whose request
encodings succeed, so each attempt is actually sent), the recursion never
terminates: for EVERY fuel bound, read fuel, cache, delivered stream and
arguments, the execution fails to return — each NONE response just triggers
another recursive attempt (or a read that blocks forever). -/
theorem thmC5 (cd : Codec S V C)
    (hm : ∀ v, cd.matchOf v = noneStr)
    (hreq : ∀ a b c0, cd.writeRequest a b c0 ≠ none)
    (hmeta : writeMetadata cd ≠ none)
    (hname : writeMethodName cd emptyName ≠ none) :
    ∀ (fuel rfuel : Nat) (c : C) (stream : List Nat) (ch cp sh : V),
      handshake cd fuel rfuel c stream ch cp sh = .diverge := by
  intro fuel
  induction fuel with
  | zero => intro rfuel c stream ch cp sh; rfl
  | succ fuel ih =>
    intro rfuel c stream ch cp sh
    obtain ⟨reqB, hreqB⟩ := Option.ne_none_iff_exists.mp (hreq ch cp sh)
    obtain ⟨metaB, hmetaB⟩ := Option.ne_none_iff_exists.mp hmeta
    obtain ⟨nameB, hnameB⟩ := Option.ne_none_iff_exists.mp hname
    have hsend : handshakeSend cd ch cp sh = ([reqB, metaB, nameB], true) := by
      simp only [handshakeSend, ← hreqB, ← hmetaB, ← hnameB]
    simp only [handshake, hsend]
    cases h1 : readValue cd cd.handshakeResponseSchema c rfuel stream with
    | none => rfl
    | some t1 =>
      obtain ⟨resp, c1, s1⟩ := t1
      dsimp only
      cases h2 : readValue cd cd.mapBytesSchema c1 rfuel s1 with
      | none => rfl
      | some t2 =>
        obtain ⟨vm, c2, s2⟩ := t2
        dsimp only
        cases h3 : readValue cd cd.boolSchema c2 rfuel s2 with
        | none => rfl
        | some t3 =>
          obtain ⟨vb, c3, s3⟩ := t3
          dsimp only
          cases h4 : readValue cd cd.nullSchema c3 rfuel s3 with
          | none => rfl
          | some t4 =>
            obtain ⟨vn, c4, s4⟩ := t4
            dsimp only
            simp only [if_pos (hm resp), ih rfuel c4 s4]

/-- Witness for C5: the always-NONE codec diverges at a concrete fuel. -/
theorem thmC5_w : handshake cdNone 3 2 0 [] 0 0 0 = .diverge :=
  thmC5 cdNone (fun _ => rfl) (fun _ _ _ h => Option.noConfusion h)
    (fun h => Option.noConfusion h) (fun h => Option.noConfusion h) 3 2 0 [] 0 0 0

/-- C10 (confirmed): the validation pass at the start of every `message` call
writes nothing to the socket — `_validate_parameters` encodes each parameter
into a local buffer that is discarded — so when validation raises (here: any
error `e`, including an encoder exception on a parameter value), `message`
terminates with that error, the written trace is empty and the stream is
untouched. -/
theorem thmC10 (cd : Codec S V C) (rfuel : Nat) (mn : String) (msch : MethodSchema S)
    (args : List V) (kwargs : List (String × V)) (c : C) (stream : List Nat) (e : PyErr V)
    (hval : validateParams cd (msch.request.getD []) args kwargs none c = .error e) :
    message cd rfuel mn msch args kwargs c stream = .raised [] stream e := by
  simp only [message, hval]

/-- Witness for C10: a codec whose encoder raises on the second parameter's
schema; `message` fails during validation with no bytes written and the
stream intact. -/
theorem thmC10_w :
    message cdFail 1 emptyName msch2 [4, 5] [] 0 [1, 2, 3]
      = .raised [] [1, 2, 3] .encodeRaise :=
  thmC10 cdFail 1 emptyName msch2 [4, 5] [] 0 [1, 2, 3] .encodeRaise rfl

/-- C6 (confirmed): after the request is written, `message` reads a metadata
map (discarded) and then a boolean error flag.  Exactly when the flag is
truthy, it raises a remote error carrying the value decoded under the
union-of-string schema `["string"]` and performs no read under the declared
response schema (the unread stream stops right after the union read); when
the flag is falsy it returns the value decoded under
`method_schema.get("response", "null")`. -/
theorem thmC6 (cd : Codec S V C) (rfuel : Nat) (mn : String) (msch : MethodSchema S)
    (args : List V) (kwargs : List (String × V)) (c c1 c2 : C)
    (metaB nameB : List Nat) (pws : List (List Nat)) (stream : List Nat)
    (vm : V) (c3 : C) (s1 : List Nat) (vb : V) (c4 : C) (s2 : List Nat)
    (hval : validateParams cd (msch.request.getD []) args kwargs none c = .ok c1)
    (hmeta : writeMetadata cd = some metaB)
    (hname : writeMethodName cd mn = some nameB)
    (hpar : writeParams cd (msch.request.getD []) args kwargs none c1 = (pws, .ok c2))
    (hrm : readValue cd cd.mapBytesSchema c2 rfuel stream = some (vm, c3, s1))
    (hrb : readValue cd cd.boolSchema c3 rfuel s1 = some (vb, c4, s2)) :
    (cd.truthy vb = true →
      ∀ (msg : V) (c5 : C) (s3 : List Nat),
        readValue cd cd.unionStringSchema c4 rfuel s2 = some (msg, c5, s3) →
        message cd rfuel mn msch args kwargs c stream =
          .raised (metaB :: nameB :: (pws ++ [terminatorBuf])) s3 (.remote msg))
    ∧ (cd.truthy vb = false →
      ∀ (vr : V) (c5 : C) (s3 : List Nat),
        readValue cd (msch.response.getD cd.nullSchema) c4 rfuel s2 = some (vr, c5, s3) →
        message cd rfuel mn msch args kwargs c stream =
          .ok (metaB :: nameB :: (pws ++ [terminatorBuf])) vr c5 s3) := by
  constructor
  · intro ht msg c5 s3 hru
    simp only [message, hval, hmeta, hname, hpar, hrm, hrb, ht, if_true, ite_true, hru]
  · intro hf vr c5 s3 hrr
    simp only [message, hval, hmeta, hname, hpar, hrm, hrb, hf, hrr, Bool.false_eq_true,
      if_false, ite_false]

/-- Witness for C6, exercising the error branch: flag decodes truthy, the
union-of-string read yields `9`, and `message` raises `remote 9` having read
nothing under the response schema. -/
theorem thmC6_w :
    message cdBase 3 emptyName msch0 [] [] 0 (frame [0] ++ frame [1] ++ frame [9])
      = .raised [[2, 0], [3, 90], []] [] (.remote 9) :=
  (thmC6 cdBase 3 emptyName msch0 [] [] 0 0 0 [2, 0] [3, 90] []
      (frame [0] ++ frame [1] ++ frame [9]) 0 0 [0, 0, 0, 1, 1, 0, 0, 0, 1, 9] 1 0
      [0, 0, 0, 1, 9] rfl rfl rfl rfl (by decide) (by decide)).1 rfl 9 0 []
    (by decide)

/-- C7 (confirmed as stated, for fully bound arguments): with every declared
parameter bound — named argument matching the parameter's name if present,
else the next unused positional argument in declaration order (`bindSpec`) —
`message` hands to `_write`, in order: the empty metadata map buffer, the
method name buffer, one buffer per declared parameter in declaration order
(each value encoded under that parameter's own doubly resolved schema,
`encodeParamsSpec`, as its own buffer, never concatenated with another), and
finally the zero-length terminator buffer.  Each buffer is length-prefix
framed individually by `_write` (`frame`). -/
theorem thmC7 (cd : Codec S V C) (rfuel : Nat) (mn : String) (msch : MethodSchema S)
    (args : List V) (kwargs : List (String × V)) (c : C) (stream : List Nat)
    (vs : List V) (bufs0 bufs : List (List Nat)) (c1 c2 : C) (metaB nameB : List Nat)
    (hbind : bindSpec (msch.request.getD []) args kwargs = some vs)
    (hval : encodeParamsSpec cd c (msch.request.getD []) vs = some (bufs0, c1))
    (henc : encodeParamsSpec cd c1 (msch.request.getD []) vs = some (bufs, c2))
    (hmeta : writeMetadata cd = some metaB)
    (hname : writeMethodName cd mn = some nameB) :
    (message cd rfuel mn msch args kwargs c stream).written
      = metaB :: nameB :: (bufs ++ [terminatorBuf]) := by
  have hv := validateParams_of_spec cd (msch.request.getD []) args kwargs none vs c bufs0 c1
    hbind hval
  have hw := writeParams_of_spec cd (msch.request.getD []) args kwargs none vs c1 bufs c2
    hbind henc
  simp only [message, hv, hw, hmeta, hname]
  cases readValue cd cd.mapBytesSchema c2 rfuel stream with
  | none => rfl
  | some t1 =>
    obtain ⟨vm, c3, s1⟩ := t1
    dsimp only
    cases readValue cd cd.boolSchema c3 rfuel s1 with
    | none => rfl
    | some t2 =>
      obtain ⟨vb, c4, s2⟩ := t2
      dsimp only
      by_cases ht : cd.truthy vb = true
      · rw [if_pos ht]
        cases readValue cd cd.unionStringSchema c4 rfuel s2 with
        | none => rfl
        | some t3 => obtain ⟨m3, c5, s3⟩ := t3; rfl
      · rw [if_neg ht]
        cases readValue cd (msch.response.getD cd.nullSchema) c4 rfuel s2 with
        | none => rfl
        | some t3 => obtain ⟨vr, c5, s3⟩ := t3; rfl

/-- Witness for C7: two positional arguments bound to two declared
parameters; the written trace is metadata, method name, one buffer per
parameter, terminator. -/
theorem thmC7_w :
    (message cdBase 1 emptyName msch2 [4, 5] [] 0 []).written
      = [2, 0] :: [3, 90] :: ([[10, 4], [11, 5]] ++ [terminatorBuf]) :=
  thmC7 cdBase 1 emptyName msch2 [4, 5] [] 0 [] [4, 5] [[10, 4], [11, 5]]
    [[10, 4], [11, 5]] 0 0 [2, 0] [3, 90] rfl rfl rfl rfl rfl

/-- C4 (amended): a declared parameter with no matching named argument and no
remaining positional argument does NOT generally cause an error before
writing.  The loop-local `data` variable silently keeps the previously bound
parameter's value: with parameters `p1, p2` and a single positional argument
`v`, both parameters are encoded with the SAME value `v` (first conjunct),
and `message` emits that request.  Only when NO parameter was ever bound does
the reference to `data` raise `UnboundLocalError`, before any bytes are
written (second conjunct). -/
theorem thmC4 (cd : Codec S V C) :
    (∀ (p1 p2 : Param S) (v : V) (kwargs : List (String × V)) (c : C)
        (bufs : List (List Nat)) (c2 : C),
      List.lookup p1.name kwargs = none →
      List.lookup p2.name kwargs = none →
      encodeParamsSpec cd c [p1, p2] [v, v] = some (bufs, c2) →
      writeParams cd [p1, p2] [v] kwargs none c = (bufs, Except.ok c2))
    ∧ (∀ (p : Param S) (ps : List (Param S)) (kwargs : List (String × V)) (c : C)
        (msch : MethodSchema S) (mn : String) (rfuel : Nat) (stream : List Nat),
      List.lookup p.name kwargs = none →
      msch.request = some (p :: ps) →
      message cd rfuel mn msch [] kwargs c stream = .raised [] stream .unboundLocal) := by
  constructor
  · intro p1 p2 v kwargs c bufs c2 hk1 hk2 henc
    simp only [encodeParamsSpec] at henc
    cases hw1 : cd.write (cd.parse (cd.parse p1.type c).1 (cd.parse p1.type c).2).1 v with
    | none => rw [hw1] at henc; simp at henc
    | some b1 =>
      rw [hw1] at henc
      cases hw2 : cd.write
          (cd.parse
            (cd.parse p2.type (cd.parse (cd.parse p1.type c).1 (cd.parse p1.type c).2).2).1
            (cd.parse p2.type
              (cd.parse (cd.parse p1.type c).1 (cd.parse p1.type c).2).2).2).1 v with
      | none => rw [hw2] at henc; simp at henc
      | some b2 =>
        rw [hw2] at henc
        simp at henc
        obtain ⟨h1, h2⟩ := henc
        subst h1; subst h2
        simp only [writeParams, bindStep, hk1, hk2, hw1, hw2]
  · intro p ps kwargs c msch mn rfuel stream hk hreq
    simp only [message, hreq, Option.getD_some, validateParams, bindStep, hk]

/-- Witness for C4 (amended): with parameters `a, b` and the single
positional argument `5`, the write loop encodes `5` for BOTH parameters. -/
theorem thmC4_w :
    writeParams cdBase [⟨aStr, 10⟩, ⟨bStr, 11⟩] [5] [] none 0
      = ([[10, 5], [11, 5]], Except.ok 0) :=
  (thmC4 cdBase).1 ⟨aStr, 10⟩ ⟨bStr, 11⟩ 5 [] 0 [[10, 5], [11, 5]] 0 rfl rfl rfl

/-- Counterexample to C4 as stated: calling `message` with two declared
parameters and only one positional argument — so parameter `b` has no
matching named argument and no remaining positional argument — raises no
error at all: the call succeeds, emitting a full request in which `b` was
encoded with the stale value `5` bound for `a` (`[11, 5]`), directly
contradicting "a caller-facing error is raised before any bytes are
written" and "no malformed request is ever emitted". -/
theorem cexC4 :
    message cdBase 3 emptyName msch2 [5] [] 0 (frame [0] ++ frame [0] ++ frame [8])
      = .ok [[2, 0], [3, 90], [10, 5], [11, 5], []] 8 0 []
    ∧ (message cdBase 3 emptyName msch2 [5] [] 0
        (frame [0] ++ frame [0] ++ frame [8])).written ≠ [] := by
  refine ⟨by decide, by decide⟩

/-- C8 (amended): every schema used for DECODING is resolved by applying
`parse_schema` twice in sequence on its own output against the shared cache
(`_read`, first conjunct, definitional), and parameter ENCODING performs the
same double resolution independently for each declared parameter (second
conjunct, via `encodeParamsSpec`).  However — contrary to the claim's
"every schema used for encoding or decoding" — the schemas used to encode
the empty metadata map and the method name are passed to the encoder RAW,
with no resolver application at all (third and fourth conjuncts,
definitional). -/
theorem thmC8 (cd : Codec S V C) (schema : S) (c : C) (fuel : Nat) (stream : List Nat)
    (params : List (Param S)) (args : List V) (kwargs : List (String × V))
    (data : Option V) (vs : List V) (c1 : C) (bufs : List (List Nat)) (c2 : C)
    (hbind : bindSpec params args kwargs = some vs)
    (henc : encodeParamsSpec cd c1 params vs = some (bufs, c2)) :
    readValue cd schema c fuel stream
      = (match readLoop (cd.readBuf (cd.parse (cd.parse schema c).1 (cd.parse schema c).2).1)
            fuel [] 0 stream with
        | some (v, rest) =>
          some (v, (cd.parse (cd.parse schema c).1 (cd.parse schema c).2).2, rest)
        | none => none)
    ∧ writeParams cd params args kwargs data c1 = (bufs, Except.ok c2)
    ∧ writeMetadata cd = cd.write cd.mapBytesSchema cd.emptyMap
    ∧ writeMethodName cd emptyName = cd.write cd.stringSchema (cd.ofString emptyName) :=
  ⟨rfl, writeParams_of_spec cd params args kwargs data vs c1 bufs c2 hbind henc, rfl, rfl⟩

/-- Witness for C8 (amended) at a concrete codec, schema and parameter
list. -/
theorem thmC8_w :
    readValue cdBase sStr 0 1 []
      = (match readLoop (cdBase.readBuf
            (cdBase.parse (cdBase.parse sStr 0).1 (cdBase.parse sStr 0).2).1) 1 [] 0 [] with
        | some (v, rest) =>
          some (v, (cdBase.parse (cdBase.parse sStr 0).1 (cdBase.parse sStr 0).2).2, rest)
        | none => none)
    ∧ writeParams cdBase [⟨aStr, 10⟩] [4] [] none 0 = ([[10, 4]], Except.ok 0)
    ∧ writeMetadata cdBase = cdBase.write cdBase.mapBytesSchema cdBase.emptyMap
    ∧ writeMethodName cdBase emptyName
        = cdBase.write cdBase.stringSchema (cdBase.ofString emptyName) :=
  thmC8 cdBase sStr 0 1 [] [⟨aStr, 10⟩] [4] [] none [4] 0 [[10, 4]] 0 rfl rfl

/-- Counterexample to C8 as stated: under a codec whose resolver shifts the
schema tag by 100 — so a doubly resolved schema is observably different —
the metadata buffer `message` writes is the encoding under the RAW map
schema (`[2, 0]`), not the encoding under the doubly resolved schema
(`[202, 0]`): not every schema used for encoding is produced by applying the
resolver twice. -/
theorem cexC8 :
    (message cdShift 1 emptyName msch0 [] [] 0 []).written.head? = some [2, 0]
    ∧ cdShift.write
        (cdShift.parse (cdShift.parse cdShift.mapBytesSchema 0).1
          (cdShift.parse cdShift.mapBytesSchema 0).2).1 cdShift.emptyMap
      = some [202, 0]
    ∧ ([2, 0] : List Nat) ≠ [202, 0] := by
  refine ⟨by decide, by decide, by decide⟩

end Yaqc
